import Mathlib

set_option maxHeartbeats 1000000

/-!
Verification development for the Skynk synteny pipeline (src/synk.py).

The pipeline functions are shallowly embedded below.  Files are modelled as
lists of lines (strings without their trailing newline); tab-separated rows
are produced and consumed through explicit split and join functions that
mirror the Python `str.strip`, `str.split` and `str.join` calls used by the
source.  Fatal errors (the broad `except` handlers that print and `sys.exit`)
are modelled with `Except String`.
-/

/-- Model of `str.strip()` on a character list: drop whitespace from both
ends.  Python strips all Unicode whitespace; the embedding covers the ASCII
whitespace characters recognised by `Char.isWhitespace`. -/
def pyStripL (l : List Char) : List Char :=
  ((l.dropWhile Char.isWhitespace).reverse.dropWhile Char.isWhitespace).reverse

/-- Model of `str.strip()`. -/
def pyStrip (s : String) : String := String.mk (pyStripL s.data)

/-- Model of `str.split("\t")` on a character list.  Like Python, splitting
the empty string yields one empty field, and the result is never empty. -/
def splitTabL : List Char → List Char → List (List Char)
  | [], acc => [acc.reverse]
  | c :: cs, acc => if c = '\t' then acc.reverse :: splitTabL cs [] else splitTabL cs (c :: acc)

/-- Model of `str.split("\t")`. -/
def splitTab (s : String) : List String := (splitTabL s.data []).map String.mk

/-- Join on character lists, inverse of `splitTabL`. -/
def joinTabL : List (List Char) → List Char
  | [] => []
  | [p] => p
  | p :: p2 :: ps => p ++ '\t' :: joinTabL (p2 :: ps)

/-- Model of `"\t".join(parts)`. -/
def joinTab : List String → String
  | [] => ""
  | [p] => p
  | p :: p2 :: ps => p ++ "\t" ++ joinTab (p2 :: ps)

/-- Model of `str.isdigit()`: nonempty and every character a digit.  Python
additionally accepts non-ASCII Unicode digit characters; the embedding covers
the decimal digits `0`-`9`, the only ones appearing in karyotype data. -/
def pyIsdigit (s : String) : Bool := !s.data.isEmpty && s.data.all Char.isDigit

/-- Decimal value of a digit string. -/
def natFromDigits (l : List Char) : Nat := l.foldl (fun a c => a * 10 + (c.toNat - 48)) 0

/-- Model of Python `int(s)` for a string: strip whitespace, optional sign,
then a nonempty run of decimal digits.  (Python additionally allows
underscores between digits; chromosome labels never contain them.) -/
def pyParseInt (s : String) : Option Int :=
  let t := pyStripL s.data
  let sg : Int × List Char :=
    match t with
    | '-' :: rest => (-1, rest)
    | '+' :: rest => (1, rest)
    | _ => (1, t)
  if !sg.2.isEmpty && sg.2.all Char.isDigit then
    some (sg.1 * (natFromDigits sg.2 : Int))
  else none

/-- Model of Python `int(float(s))` as used for the `Gene Start` and
`Gene End` columns: optional sign, decimal digits with an optional single
point and fraction, truncated toward zero.  (Exponent and infinity forms of
`float` are not modelled; coordinates in BUSCO tables are plain decimals.) -/
def parseCoord (s : String) : Option Int :=
  let t := pyStripL s.data
  let sg : Int × List Char :=
    match t with
    | '-' :: rest => (-1, rest)
    | '+' :: rest => (1, rest)
    | _ => (1, t)
  let ip := sg.2.takeWhile Char.isDigit
  let rest := sg.2.dropWhile Char.isDigit
  let ok : Bool :=
    match rest with
    | [] => !ip.isEmpty
    | '.' :: fr => (!ip.isEmpty || !fr.isEmpty) && fr.all Char.isDigit
    | _ => false
  if ok then some (sg.1 * (natFromDigits ip : Int)) else none

/-- Lookup in an association list, modelling Python dict lookup. -/
def alookup {α : Type} : List (String × α) → String → Option α
  | [], _ => none
  | p :: t, k => if p.1 = k then some p.2 else alookup t k

/-- Dict assignment `m[k] = v`: the first occurrence of the key keeps its
position (as in a Python dict) and its value is overwritten; a new key is
appended. -/
def insertLW {α : Type} : List (String × α) → String → α → List (String × α)
  | [], k, v => [(k, v)]
  | p :: t, k, v => if p.1 = k then (k, v) :: t else p :: insertLW t k v

/-- Truthiness of an optional string, modelling `if x:` where `x` is either
`None` or a string (the empty string is falsy). -/
def pyTruthyS (o : Option String) : Bool :=
  match o with
  | none => false
  | some s => !s.isEmpty

/-- Model of `a or b` on optional strings. -/
def pyOrS (a b : Option String) : Option String := if pyTruthyS a then a else b

/-- Model of `str.lower()` (ASCII; BUSCO identifiers are ASCII). -/
def pyLower (s : String) : String := String.mk (s.data.map Char.toLower)

/-- Model of `str.upper()` (ASCII; chromosome labels are ASCII). -/
def pyUpper (s : String) : String := String.mk (s.data.map Char.toUpper)

/-- Model of `Except.isOk`. -/
def isOkE {α : Type} : Except String α → Bool
  | .ok _ => true
  | .error _ => false

-- === ChromosomeOrdering (src/synk.py `ROMAN_NUMERAL_MAP`, `try_parse_chr`) ===

/-- The fixed Roman numeral lookup table of the source. -/
def ROMAN_NUMERAL_MAP : List (String × Int) :=
  [("I", 1), ("II", 2), ("III", 3), ("IV", 4), ("V", 5), ("VI", 6), ("VII", 7), ("VIII", 8),
   ("IX", 9), ("X", 10), ("XI", 11), ("XII", 12), ("XIII", 13), ("XIV", 14), ("XV", 15),
   ("XVI", 16), ("XVII", 17), ("XVIII", 18), ("XIX", 19), ("XX", 20)]

/-- Sort key returned by `try_parse_chr`: a Python `int` or a Python `str`. -/
inductive ChrKey : Type where
  | int : Int → ChrKey
  | str : String → ChrKey
deriving DecidableEq

/-- Model of `try_parse_chr`: integer parse first, then the Roman table on the
upper-cased label, else the raw label. -/
def try_parse_chr (s : String) : ChrKey :=
  match pyParseInt s with
  | some n => .int n
  | none =>
    match alookup ROMAN_NUMERAL_MAP (pyUpper s) with
    | some n => .int n
    | none => .str s

/-- Python 3 `<` on sort keys: comparable within one type, `TypeError` on a
mixed `int` / `str` comparison. -/
def keyLtE : ChrKey → ChrKey → Except String Bool
  | .int a, .int b => .ok (decide (a < b))
  | .str a, .str b => .ok (decide (a < b))
  | _, _ => .error "TypeError: unorderable types"

/-- Pure rendition of `keyLtE` (mixed comparisons give `false`). -/
def keyLtB : ChrKey → ChrKey → Bool
  | .int a, .int b => decide (a < b)
  | .str a, .str b => decide (a < b)
  | _, _ => false

/-- Whether two keys have the same Python type. -/
def sameTy : ChrKey → ChrKey → Bool
  | .int _, .int _ => true
  | .str _, .str _ => true
  | _, _ => false

/-- Whether a key is a Python `int`. -/
def ChrKey.isIntK : ChrKey → Bool
  | .int _ => true
  | .str _ => false

/-- Stable insertion into a sorted list using the fallible Python comparison:
the new element is placed before the first strictly greater element, hence
after all elements with an equal key (stability, as in Python `sorted`). -/
def insertE (key : String → ChrKey) (x : String) : List String → Except String (List String)
  | [] => .ok [x]
  | y :: ys => do
    let b ← keyLtE (key x) (key y)
    if b then
      pure (x :: y :: ys)
    else do
      pure (y :: (← insertE key x ys))

/-- Model of Python `sorted(l, key=key)`: a stable comparison sort over the
fallible key order.  Any stable comparison sort computes the same output, and
raises whenever the input mixes `int` and `str` keys, so insertion sort is a
faithful rendition of Timsort here. -/
def sortByKeyE (key : String → ChrKey) (l : List String) : Except String (List String) :=
  l.foldlM (fun acc x => insertE key x acc) []

/-- Pure stable insertion (mixed-type comparisons treated as `false`). -/
def insertP (key : String → ChrKey) (x : String) : List String → List String
  | [] => [x]
  | y :: ys => if keyLtB (key x) (key y) then x :: y :: ys else y :: insertP key x ys

/-- Pure stable insertion sort, matching `sortByKeyE` on inputs whose keys
are uniformly typed. -/
def sortP (key : String → ChrKey) (l : List String) : List String :=
  l.foldl (fun acc x => insertP key x acc) []

-- === ColorAssigner (src/synk.py `generate_color_gradient`, `create_chr_color_map`) ===

/-- Lower-case hex digit for a value below 16. -/
def hexDigit (n : Nat) : Char := if n < 10 then Char.ofNat (48 + n) else Char.ofNat (87 + n)

/-- Six lower-case hex digits of `i mod 2^24`. -/
def toHex6 (i : Nat) : String :=
  String.mk [hexDigit (i / 1048576 % 16), hexDigit (i / 65536 % 16), hexDigit (i / 4096 % 16),
             hexDigit (i / 256 % 16), hexDigit (i / 16 % 16), hexDigit (i % 16)]

/-- Modelled from the spec: `generate_color_gradient` samples a named
matplotlib colormap (a library absent from src/) at `numColors` evenly spaced
points and formats each sample as a 6-hex-digit string with the leading `#`
removed.  Per the spec the gradient is injective over its domain for
reasonable `N`; the gradient name only selects which concrete colors are
produced, so it is not a parameter of the model. -/
def generate_color_gradient (numColors : Nat) : List String :=
  (List.range numColors).map toHex6

/-- Model of `pandas.Series.unique`: first-occurrence deduplication,
preserving input order. -/
def uniqueFirst (l : List String) : List String :=
  l.foldl (fun acc x => if acc.contains x then acc else acc ++ [x]) []

/-- Model of `create_chr_color_map`, taking the `Chr` column of the karyotype
file (already read as strings, in row order).  Output: the label-to-color
pairs written to `chr_color_map.txt` and the rank-to-color pairs written to
`color_replace.txt`.  The fatal broad handler is the `Except` error. -/
def create_chr_color_map (chrValues : List String) :
    Except String (List (String × String) × List (String × String)) := do
  let chromosomes := uniqueFirst chrValues
  let chromosomes_sorted ← sortByKeyE try_parse_chr chromosomes
  let colors := generate_color_gradient chromosomes_sorted.length
  let labelMap := chromosomes_sorted.zip colors
  let ordinalMap := ((List.range chromosomes_sorted.length).zip colors).map
    (fun p => (Nat.repr (p.1 + 1), p.2))
  pure (labelMap, ordinalMap)

/-- The colors of the label map produced by `create_chr_color_map` (empty on
a fatal error); used to state distinctness of the assigned colors. -/
def labelColorsOf (l : List String) : List String :=
  match create_chr_color_map l with
  | .ok p => p.1.map Prod.snd
  | .error _ => []

/-- Whether a character is a lower-case hex digit. -/
def isHexCh (c : Char) : Bool :=
  (48 ≤ c.toNat && c.toNat ≤ 57) || (97 ≤ c.toNat && c.toNat ≤ 102)

-- === LinkValidator variant (src/synk.py `filter_non_integer_chrs`) ===

/-- Decision for one line of `filter_non_integer_chrs`: the header (line 0) is
always kept; otherwise `parts[0].isdigit() and parts[3].isdigit()` with
Python short-circuiting, so `parts[3]` is only accessed when `parts[0]` is a
digit string, and its access on a short row raises `IndexError`. -/
def filterLineKeep (i : Nat) (line : String) : Except String Bool :=
  let parts := splitTab (pyStrip line)
  if i = 0 then .ok true
  else if pyIsdigit (parts.headD "") then
    match parts.get? 3 with
    | some p3 => .ok (pyIsdigit p3)
    | none => .error "IndexError: list index out of range"
  else .ok false

/-- Model of `filter_non_integer_chrs`: keep the header and the data rows
whose first and fourth tab-separated fields are digit strings; a raised
exception is caught by the broad handler and is fatal. -/
def filter_non_integer_chrs (lines : List String) : Except String (List String) :=
  lines.enum.foldlM
    (fun acc p => do
      let keep ← filterLineKeep p.1 p.2
      pure (if keep then acc ++ [p.2] else acc))
    []

-- === ChromosomeRemapper (src/synk.py `apply_chr_replacements`) ===

/-- Model of the replacement-map loader `load_map`: each line must strip and
split into exactly two tab-separated fields (`old, new = ...` raises
otherwise, which the broad handler makes fatal); assignment into the dict is
`insertLW`. -/
def load_map (lines : List String) : Except String (List (String × String)) :=
  lines.foldlM
    (fun m line =>
      match splitTab (pyStrip line) with
      | [old, new] => pure (insertLW m old new)
      | _ => .error "ValueError: unpack")
    []

/-- The per-row rewrite of `apply_chr_replacements`:
`parts[0] = rep1.get(parts[0], parts[0])` and
`parts[3] = rep2.get(parts[3], parts[3])`. -/
def remapParts (rep1 rep2 : List (String × String)) (parts : List String) : List String :=
  let f0 := parts.headD ""
  let f3 := (parts.get? 3).getD ""
  (parts.set 0 ((alookup rep1 f0).getD f0)).set 3 ((alookup rep2 f3).getD f3)

/-- Model of `apply_chr_replacements` on the lines of the synteny file: the
first line is the header (stripped, passed through); every further line is
stripped and split on tabs, dropped unless it has exactly seven fields, and
otherwise re-emitted with fields 1 and 4 rewritten through the two maps.
(On an empty file `readline` returns the empty header.) -/
def apply_chr_replacements (lines : List String) (rep1 rep2 : List (String × String)) :
    List String :=
  match lines with
  | [] => [""]
  | header :: rest =>
    pyStrip header :: rest.filterMap (fun line =>
      let parts := splitTab (pyStrip line)
      if parts.length = 7 then some (joinTab (remapParts rep1 rep2 parts)) else none)

-- === FillResolver (src/synk.py `replace_fill`) ===

/-- Model of the color-map loader at the top of `replace_fill`: nonblank
lines that strip and split into exactly two fields populate the dict. -/
def load_color_map (lines : List String) : List (String × String) :=
  lines.foldl
    (fun acc line =>
      if pyStrip line = "" then acc
      else
        match splitTab (pyStrip line) with
        | [k, v] => insertLW acc k v
        | _ => acc)
    []

/-- Model of `replace_fill` on the lines of the link table: blank lines are
skipped, line 0 is written through verbatim, data rows are dropped unless
they have exactly seven fields, and a row is emitted with its last field
overwritten exactly when `color_dict.get(parts[0])` is truthy (a present,
nonempty color). -/
def replace_fill (lines : List String) (color_dict : List (String × String)) : List String :=
  lines.enum.filterMap (fun p =>
    if pyStrip p.2 = "" then none
    else if p.1 = 0 then some p.2
    else
      let parts := splitTab (pyStrip p.2)
      if parts.length = 7 then
        match alookup color_dict (parts.headD "") with
        | some fill => if fill = "" then none else some (joinTab (parts.dropLast ++ [fill]))
        | none => none
      else none)

-- === OrthologMatcher (src/synk.py `merge_busco`) ===

/-- One row of a BUSCO full table as seen by `csv.DictReader`.  The
`# Busco id` column is modelled as always present: its absence raises a
`KeyError` outside the per-row handler and aborts the merge before any row is
retained.  The other fields are `Option`s: `none` models both a missing
column (`row.get` returning `None`) and a short line. -/
structure BuscoRow where
  busco_id : String
  status : Option String
  contig : Option String
  sequence_col : Option String
  gene_start : Option String
  gene_end : Option String
deriving DecidableEq

/-- The retention test of `read_busco`: `row.get("Status", "").strip()` must
equal `"Complete"`. -/
def isCompleteRow (r : BuscoRow) : Bool := pyStrip (r.status.getD "") = "Complete"

/-- The index key of a row: `row["# Busco id"].strip().lower()`. -/
def buscoKey (r : BuscoRow) : String := pyLower (pyStrip r.busco_id)

/-- Model of the inner `read_busco`: an insertion-ordered dict from key to the
last retained row with that key (`data.setdefault(bid, {})[label] = row`),
keeping only rows whose stripped status is `"Complete"`. -/
def read_busco (rows : List BuscoRow) : List (String × BuscoRow) :=
  rows.foldl
    (fun data row => if isCompleteRow row then insertLW data (buscoKey row) row else data)
    []

/-- The per-identifier body of the `for bid in shared` loop, as an `Option`:
`none` models the silent `continue` on a missing or unparseable coordinate or
a falsy contig/sequence value. -/
def linkOfPair (r1 r2 : BuscoRow) : Option String :=
  match r1.gene_start.bind parseCoord, r1.gene_end.bind parseCoord,
        r2.gene_start.bind parseCoord, r2.gene_end.bind parseCoord with
  | some s1, some e1, some s2, some e2 =>
    let chr1 := pyOrS r1.contig r1.sequence_col
    let chr2 := pyOrS r2.contig r2.sequence_col
    if pyTruthyS chr1 && pyTruthyS chr2 then
      some (joinTab [chr1.getD "", toString s1, toString e1,
                     chr2.getD "", toString s2, toString e2, "placeholder"])
    else none
  | _, _, _, _ => none

/-- The list `shared = [bid for bid in b1 if bid in b2]`. -/
def sharedIds (b1 b2 : List (String × BuscoRow)) : List String :=
  (b1.map Prod.fst).filter (fun bid => (alookup b2 bid).isSome)

/-- Model of `merge_busco`: header line followed by one emitted row per
shared identifier whose per-row body succeeds. -/
def merge_busco (rows1 rows2 : List BuscoRow) : List String :=
  let b1 := read_busco rows1
  let b2 := read_busco rows2
  let dataRows := (sharedIds b1 b2).filterMap (fun bid =>
    (alookup b1 bid).bind (fun r1 => (alookup b2 bid).bind (fun r2 => linkOfPair r1 r2)))
  ("Species_1\tStart_1\tEnd_1\tSpecies_2\tStart_2\tEnd_2\tfill") :: dataRows

/-- The order in which identifiers of retained (Complete) rows are first seen
in a table; used to state the iteration order of the merge. -/
def firstSeenCompleteIds (rows : List BuscoRow) : List String :=
  rows.foldl
    (fun acc r =>
      if isCompleteRow r then
        (if acc.contains (buscoKey r) then acc else acc ++ [buscoKey r])
      else acc)
    []

-- === KaryotypeAugmenter (src/synk.py `augment_karyotype`), over a small pandas model ===

/-- A dataframe: column names plus rows of cells, a cell being `none` for
NaN/missing.  Rows are positional, parallel to `cols`. -/
structure DF where
  cols : List String
  rows : List (List (Option String))
deriving DecidableEq

/-- Position of a column, `none` when absent. -/
def DF.colIdx (df : DF) (c : String) : Option Nat := df.cols.findIdx? (fun x => x = c)

/-- Cell of a row at an optional column position. -/
def cellAt (r : List (Option String)) (i : Option Nat) : Option String :=
  match i with
  | none => none
  | some j => (r.get? j).join

/-- Model of `df[c] if c in df.columns else pd.Series([None] * len(df))`. -/
def DF.getColD (df : DF) (c : String) : List (Option String) :=
  match df.colIdx c with
  | none => df.rows.map (fun _ => none)
  | some j => df.rows.map (fun r => (r.get? j).join)

/-- Model of `df[c] = values`: overwrite an existing column in place, or
append a new column at the end. -/
def DF.setColList (df : DF) (c : String) (vals : List (Option String)) : DF :=
  match df.colIdx c with
  | some j => ⟨df.cols, (df.rows.zip vals).map (fun p => p.1.set j p.2)⟩
  | none => ⟨df.cols ++ [c], (df.rows.zip vals).map (fun p => p.1 ++ [p.2])⟩

/-- Model of `df[c] = constant`. -/
def DF.setColConst (df : DF) (c : String) (v : Option String) : DF :=
  df.setColList c (df.rows.map (fun _ => v))

/-- Model of `df[[c for c in sel if c in df.columns]]` (column selection). -/
def DF.selectCols (df : DF) (sel : List String) : DF :=
  ⟨sel, df.rows.map (fun r => sel.map (fun c => cellAt r (df.colIdx c)))⟩

/-- Model of `df.drop(columns=[...])` for columns known to exist or not. -/
def DF.dropCols (df : DF) (cs : List String) : DF :=
  df.selectCols (df.cols.filter (fun c => !cs.contains c))

/-- Model of `df.merge(chr_color_map, on="Chr", how="left")` where the right
table is the two-column color map (columns `Chr`, `fill`).  A missing `Chr`
column in the left table raises (pandas `KeyError`), made fatal by the broad
handler.  When the left table already has a `fill` column the overlapping
columns are suffixed `fill_x` / `fill_y`; a left row with no match gets NaN,
one with several matches is duplicated. -/
def mergeLeftChr (df : DF) (cmap : List (String × String)) : Except String DF :=
  match df.colIdx "Chr" with
  | none => .error "KeyError: Chr"
  | some ci =>
    let hasFill := df.cols.contains "fill"
    let cols2 := (df.cols.map (fun c => if hasFill && c = "fill" then "fill_x" else c)) ++
      [if hasFill then "fill_y" else "fill"]
    let rows2 := df.rows.flatMap (fun r =>
      let chrv := (r.get? ci).join
      let ms := cmap.filter (fun p => match chrv with | none => false | some v => p.1 = v)
      if ms.isEmpty then [r ++ [none]] else ms.map (fun p => r ++ [some p.2]))
    .ok ⟨cols2, rows2⟩

/-- The fill-resolution block of `augment_karyotype` in join mode:
`fill_x.combine_first(fill_y).combine_first(fill)` with absent columns
replaced by all-`None` series, then dropping `fill_x` / `fill_y`. -/
def resolveFill (merged : DF) : DF :=
  let fx := merged.getColD "fill_x"
  let fy := merged.getColD "fill_y"
  let fl := merged.getColD "fill"
  let newFill := (fx.zip (fy.zip fl)).map
    (fun p => (p.1.orElse (fun _ => p.2.1)).orElse (fun _ => p.2.2))
  (merged.setColList "fill" newFill).dropCols ["fill_x", "fill_y"]

/-- Model of `augment_karyotype`.  `fill_all` truthy selects flat-fill mode;
otherwise the karyotype is left-merged with the color map on `Chr` and the
fill columns are resolved.  Then constant `size` and `color` columns are
attached and the columns are restricted and reordered to the expected list,
keeping only those present. -/
def augment_karyotype (df : DF) (chr_color_map : List (String × String))
    (fill_all : Option String) (size color : String) : Except String DF := do
  let df2 ←
    if pyTruthyS fill_all then
      pure (df.setColConst "fill" fill_all)
    else do
      let merged ← mergeLeftChr df chr_color_map
      pure (resolveFill merged)
  let df3 := df2.setColConst "size" (some size)
  let df4 := df3.setColConst "color" (some color)
  let expected := ["Chr", "Start", "End", "fill", "species", "size", "color"]
  pure (df4.selectCols (expected.filter (fun c => df4.cols.contains c)))

-- === Concrete tables used by witnesses ===

/-- A small species-1 BUSCO table: two Complete rows (ids `X1`, `X3`) and one
Fragmented row (`X2`). -/
def buscoRows1 : List BuscoRow :=
  [⟨"X1", some "Complete", some "c1", none, some "100", some "200"⟩,
   ⟨"X2", some "Fragmented", some "c1", none, some "1", some "2"⟩,
   ⟨"X3", some "Complete", some "c2", none, some "5", some "6"⟩]

/-- A small species-2 BUSCO table sharing exactly the id `x1` with
`buscoRows1` (its contig comes from the `Sequence` fallback). -/
def buscoRows2 : List BuscoRow :=
  [⟨"x1", some "Complete", none, some "s9", some "300", some "400"⟩,
   ⟨"x2", some "Complete", some "c3", none, some "1", some "2"⟩]

-- ===================== Helper lemmas =====================

theorem splitTabL_ne_nil (l : List Char) (acc : List Char) : splitTabL l acc ≠ [] := by
  induction l generalizing acc with
  | nil => simp [splitTabL]
  | cons c cs ih =>
    simp only [splitTabL]
    by_cases hc : c = '\t'
    · simp [hc]
    · simpa [hc] using ih (c :: acc)

theorem splitTabL_join (l : List Char) :
    ∀ acc, joinTabL (splitTabL l acc) = acc.reverse ++ l := by
  induction l with
  | nil => intro acc; simp [splitTabL, joinTabL]
  | cons c cs ih =>
    intro acc
    by_cases hc : c = '\t'
    · subst hc
      simp only [splitTabL, if_pos rfl]
      obtain ⟨p, ps, hps⟩ := List.exists_cons_of_ne_nil (splitTabL_ne_nil cs [])
      rw [hps]
      show acc.reverse ++ '\t' :: joinTabL (p :: ps) = acc.reverse ++ '\t' :: cs
      rw [← hps, ih []]
      simp
    · simp only [splitTabL, if_neg hc]
      rw [ih (c :: acc)]
      simp

theorem string_mk_append (a b : List Char) : String.mk a ++ String.mk b = String.mk (a ++ b) := rfl

theorem joinTab_map_mk (ps : List (List Char)) :
    joinTab (ps.map String.mk) = String.mk (joinTabL ps) := by
  match ps with
  | [] => rfl
  | [p] => rfl
  | p :: p2 :: ps =>
    show String.mk p ++ "\t" ++ joinTab ((p2 :: ps).map String.mk) = _
    rw [joinTab_map_mk (p2 :: ps)]
    show String.mk p ++ String.mk ['\t'] ++ String.mk (joinTabL (p2 :: ps)) = _
    rw [string_mk_append, string_mk_append]
    simp [joinTabL]

theorem joinTab_splitTab (s : String) : joinTab (splitTab s) = s := by
  rw [splitTab, joinTab_map_mk, splitTabL_join]
  cases s
  rfl

theorem dropWhile_head_false (p : Char → Bool) :
    ∀ (l : List Char) x xs, l.dropWhile p = x :: xs → p x = false := by
  intro l
  induction l with
  | nil => intro x xs h; simp [List.dropWhile] at h
  | cons c cs ih =>
    intro x xs h
    by_cases hc : p c
    · rw [List.dropWhile_cons_of_pos hc] at h
      exact ih x xs h
    · rw [List.dropWhile_cons_of_neg hc] at h
      cases h
      simpa using hc

theorem pyStripL_no_trailing_ws (l : List Char) (k : List Char) (c : Char)
    (hc : c.isWhitespace = true) : pyStripL l ≠ k ++ [c] := by
  intro h
  unfold pyStripL at h
  have h2 : ((l.dropWhile Char.isWhitespace).reverse.dropWhile Char.isWhitespace) =
      c :: k.reverse := by
    have := congrArg List.reverse h
    simpa using this
  have := dropWhile_head_false Char.isWhitespace _ c k.reverse h2
  rw [hc] at this
  cases this

theorem splitTab_pyStrip_two (s : String) (k v : String)
    (h : splitTab (pyStrip s) = [k, v]) : v ≠ "" := by
  intro hv
  subst hv
  unfold splitTab at h
  have h2 : ∃ k1 v1, splitTabL (pyStrip s).data [] = [k1, v1] ∧
      String.mk k1 = k ∧ String.mk v1 = ("" : String) := by
    rcases hl : splitTabL (pyStrip s).data [] with _ | ⟨a, _ | ⟨b, _ | ⟨c2, t⟩⟩⟩ <;> rw [hl] at h
    · simp at h
    · simp at h
    · have h3 : String.mk a = k ∧ String.mk b = ("" : String) := by simpa using h
      exact ⟨a, b, rfl, h3.1, h3.2⟩
    · simp at h
  obtain ⟨k1, v1, hsplit, hk, hv1⟩ := h2
  have hv1nil : v1 = [] := by
    have := congrArg String.data hv1
    simpa using this
  subst hv1nil
  have hjoin := splitTabL_join (pyStrip s).data []
  rw [hsplit] at hjoin
  simp only [joinTabL, List.reverse_nil, List.nil_append] at hjoin
  have hdata : (pyStrip s).data = pyStripL s.data := rfl
  rw [hdata] at hjoin
  exact pyStripL_no_trailing_ws s.data k1 '\t' (by decide) hjoin.symm

theorem mem_insertLW {α : Type} (m : List (String × α)) (k : String) (v : α) :
    ∀ q ∈ insertLW m k v, q = (k, v) ∨ q ∈ m := by
  induction m with
  | nil => intro q hq; simp [insertLW] at hq; left; exact hq
  | cons p t ih =>
    intro q hq
    by_cases hp : p.1 = k
    · simp only [insertLW, if_pos hp] at hq
      rcases List.mem_cons.mp hq with hq | hq
      · left; exact hq
      · right; exact List.mem_cons_of_mem p hq
    · simp only [insertLW, if_neg hp] at hq
      rcases List.mem_cons.mp hq with hq | hq
      · right; exact hq ▸ List.mem_cons_self p t
      · rcases ih q hq with h | h
        · left; exact h
        · right; exact List.mem_cons_of_mem p h

theorem alookup_insertLW_isSome {α : Type} (m : List (String × α)) (k k2 : String) (v : α) :
    (alookup (insertLW m k v) k2).isSome = true ↔
      (k2 = k ∨ (alookup m k2).isSome = true) := by
  induction m with
  | nil =>
    simp only [insertLW, alookup]
    by_cases h : k = k2
    · simp [h, eq_comm]
    · simp only [if_neg h, alookup]
      constructor
      · intro h2; simp at h2
      · intro h2
        rcases h2 with h2 | h2
        · exact absurd h2.symm h
        · simp at h2
  | cons p t ih =>
    by_cases hp : p.1 = k
    · simp only [insertLW, if_pos hp, alookup]
      by_cases h2 : k = k2
      · simp [h2, if_pos h2]
      · rw [if_neg h2, hp, if_neg h2]
        constructor
        · intro h3; right; exact h3
        · intro h3
          rcases h3 with h3 | h3
          · exact absurd h3.symm h2
          · exact h3
    · simp only [insertLW, if_neg hp, alookup]
      by_cases h2 : p.1 = k2
      · simp [h2, if_pos h2]
      · rw [if_neg h2, if_neg h2]
        exact ih

theorem alookup_mem {α : Type} (m : List (String × α)) (k : String) (v : α)
    (h : alookup m k = some v) : (k, v) ∈ m := by
  induction m with
  | nil => simp [alookup] at h
  | cons p t ih =>
    by_cases hp : p.1 = k
    · simp only [alookup, if_pos hp] at h
      cases h
      have : p = (k, p.2) := by rw [← hp]
      rw [this]
      exact List.mem_cons_self _ _
    · simp only [alookup, if_neg hp] at h
      exact List.mem_cons_of_mem p (ih h)

theorem alookup_isSome_of_mem_keys {α : Type} (m : List (String × α)) (k : String)
    (h : k ∈ m.map Prod.fst) : (alookup m k).isSome = true := by
  induction m with
  | nil => simp at h
  | cons p t ih =>
    simp only [List.map_cons, List.mem_cons] at h
    by_cases hp : p.1 = k
    · simp [alookup, hp]
    · rcases h with h | h
      · exact absurd h.symm hp
      · simp [alookup, hp, ih h]

theorem keys_insertLW {α : Type} (m : List (String × α)) (k : String) (v : α) :
    (insertLW m k v).map Prod.fst =
      if (m.map Prod.fst).contains k then m.map Prod.fst else m.map Prod.fst ++ [k] := by
  induction m with
  | nil => simp [insertLW]
  | cons p t ih =>
    by_cases hp : p.1 = k
    · simp [insertLW, hp, List.contains_cons]
    · have hbeq : (k == p.1) = false := by
        simp only [beq_eq_false_iff_ne, ne_eq]
        exact fun h => hp h.symm
      simp only [insertLW, if_neg hp, List.map_cons, List.contains_cons, hbeq, Bool.false_or, ih]
      by_cases hc : (List.map Prod.fst t).contains k = true
      · rw [if_pos hc, if_pos hc]
      · rw [if_neg hc, if_neg hc, List.cons_append]

theorem filterMap_eq_map_of_isSome {α β : Type} (f : α → Option β) (d : β) (l : List α)
    (h : ∀ x ∈ l, (f x).isSome = true) :
    l.filterMap f = l.map (fun x => (f x).getD d) := by
  induction l with
  | nil => rfl
  | cons a t ih =>
    have ha := h a (List.mem_cons_self a t)
    obtain ⟨b, hb⟩ := Option.isSome_iff_exists.mp ha
    simp only [List.filterMap_cons, hb, List.map_cons, Option.getD_some]
    rw [ih (fun x hx => h x (List.mem_cons_of_mem a hx))]

theorem filterMap_some_id {α : Type} (f : α → Option α) (l : List α)
    (h : ∀ x ∈ l, f x = some x) : l.filterMap f = l := by
  induction l with
  | nil => rfl
  | cons a t ih =>
    simp only [List.filterMap_cons, h a (List.mem_cons_self a t)]
    rw [ih (fun x hx => h x (List.mem_cons_of_mem a hx))]

theorem length_seven_cases (parts : List String) (h : parts.length = 7) :
    ∃ a b c d e f g, parts = [a, b, c, d, e, f, g] := by
  rcases parts with _ | ⟨a, _ | ⟨b, _ | ⟨c, _ | ⟨d, _ | ⟨e, _ | ⟨f, _ | ⟨g, _ | ⟨a8, t⟩⟩⟩⟩⟩⟩⟩⟩ <;>
    simp only [List.length_cons, List.length_nil] at h <;>
    first
      | omega
      | exact ⟨a, b, c, d, e, f, g, rfl⟩

-- ===================== C7 / C10 : filter_non_integer_chrs =====================

theorem filterLineKeep_data (i : Nat) (line : String) (hi : i ≠ 0)
    (h4 : 4 ≤ (splitTab (pyStrip line)).length) :
    filterLineKeep i line =
      .ok (pyIsdigit ((splitTab (pyStrip line)).headD "") &&
        pyIsdigit (((splitTab (pyStrip line)).get? 3).getD "")) := by
  unfold filterLineKeep
  rw [if_neg hi]
  by_cases hd : pyIsdigit ((splitTab (pyStrip line)).headD "") = true
  · rw [if_pos hd]
    have h3 : ¬ (splitTab (pyStrip line)).get? 3 = none := by
      intro hno
      rw [List.get?_eq_none] at hno
      omega
    obtain ⟨p3, hp3⟩ := Option.ne_none_iff_exists'.mp h3
    rw [hp3]
    simp only [hd, Option.getD_some, Bool.true_and]
  · rw [if_neg hd]
    have hd2 : pyIsdigit ((splitTab (pyStrip line)).headD "") = false :=
      Bool.not_eq_true _ ▸ eq_false_of_ne_true hd
    rw [hd2]
    rfl

theorem filter_fold_ok (rows : List String) :
    ∀ (n : Nat) (acc : List String), n ≠ 0 →
    (∀ l ∈ rows, 4 ≤ (splitTab (pyStrip l)).length) →
    (List.enumFrom n rows).foldlM
      (fun acc p => do
        let keep ← filterLineKeep p.1 p.2
        pure (if keep then acc ++ [p.2] else acc)) acc
    = .ok (acc ++ rows.filter (fun l =>
        pyIsdigit ((splitTab (pyStrip l)).headD "") &&
        pyIsdigit (((splitTab (pyStrip l)).get? 3).getD ""))) := by
  induction rows with
  | nil =>
    intro n acc _ _
    simp only [List.enumFrom, List.foldlM, List.filter_nil, List.append_nil]
    rfl
  | cons a t ih =>
    intro n acc hn h4
    have ha := filterLineKeep_data n a hn (h4 a (List.mem_cons_self a t))
    have hstep : List.enumFrom n (a :: t) = (n, a) :: List.enumFrom (n + 1) t := rfl
    rw [hstep, List.foldlM_cons]
    have h1 : (do
        let keep ← filterLineKeep n a
        pure (if keep then acc ++ [a] else acc) : Except String (List String)) =
        Except.ok (if (pyIsdigit ((splitTab (pyStrip a)).headD "") &&
          pyIsdigit (((splitTab (pyStrip a)).get? 3).getD "")) then acc ++ [a] else acc) := by
      rw [ha]
      rfl
    rw [h1]
    have h2 := ih (n + 1) (if (pyIsdigit ((splitTab (pyStrip a)).headD "") &&
      pyIsdigit (((splitTab (pyStrip a)).get? 3).getD "")) then acc ++ [a] else acc)
      (by omega) (fun l hl => h4 l (List.mem_cons_of_mem a hl))
    show (List.enumFrom (n + 1) t).foldlM _ _ = _
    rw [h2, List.filter_cons]
    by_cases hk : (pyIsdigit ((splitTab (pyStrip a)).headD "") &&
        pyIsdigit (((splitTab (pyStrip a)).get? 3).getD "")) = true
    · rw [hk]
      simp [hk]
    · have hk2 := eq_false_of_ne_true hk
      rw [hk2]
      simp [hk2]

/-- Claim C7: `filter_non_integer_chrs` retains the header row, and retains a
data row exactly when its first and fourth tab-separated fields are both
digit strings (it drops every data row for which this fails).  The rows are
assumed to have at least four fields; the unguarded access on shorter rows is
the subject of C10. -/
theorem filter_non_integer_chrs_keeps_digit_rows (header : String) (rows : List String)
    (h4 : ∀ l ∈ rows, 4 ≤ (splitTab (pyStrip l)).length) :
    filter_non_integer_chrs (header :: rows) =
      .ok (header :: rows.filter (fun l =>
        pyIsdigit ((splitTab (pyStrip l)).headD "") &&
        pyIsdigit (((splitTab (pyStrip l)).get? 3).getD ""))) := by
  unfold filter_non_integer_chrs
  have h0 : List.enum (header :: rows) = (0, header) :: List.enumFrom 1 rows := rfl
  rw [h0, List.foldlM_cons]
  have h1 : (do
      let keep ← filterLineKeep 0 header
      pure (if keep then ([] : List String) ++ [header] else []) :
      Except String (List String)) = Except.ok [header] := rfl
  rw [h1]
  show (List.enumFrom 1 rows).foldlM _ _ = _
  rw [filter_fold_ok rows 1 [header] (by omega) h4]
  rfl

/-- Witness for C7 at a concrete table: the all-digit row is retained, the
row with a non-digit first field is dropped, the header survives. -/
theorem filter_non_integer_chrs_keeps_digit_rows_witness :
    filter_non_integer_chrs ["H", "1\ta\tb\t4", "x\ta\tb\t4"] = .ok ["H", "1\ta\tb\t4"] := by
  exact filter_non_integer_chrs_keeps_digit_rows "H" ["1\ta\tb\t4", "x\ta\tb\t4"] (by decide)

/-- Claim C10: on a data row whose first field is all digits but which has
fewer than four tab-separated fields, `filter_non_integer_chrs` aborts the
run with a fatal error (the unguarded `parts[3]` access raises `IndexError`,
caught only by the broad handler that terminates the process) instead of
dropping the row. -/
theorem filter_non_integer_chrs_short_row_aborts :
    filter_non_integer_chrs ["Species_1\tStart_1", "12\tfoo"] =
      .error "IndexError: list index out of range" ∧
    pyIsdigit ((splitTab (pyStrip "12\tfoo")).headD "") = true ∧
    (splitTab (pyStrip "12\tfoo")).length < 4 := ⟨rfl, rfl, by decide⟩

-- ===================== C9 / C8 : apply_chr_replacements =====================

/-- For an identity map, `rep.get(x, x)` is `x`. -/
theorem alookup_getD_id (m : List (String × String)) (k : String)
    (hid : ∀ p ∈ m, p.2 = p.1) : (alookup m k).getD k = k := by
  induction m with
  | nil => rfl
  | cons p t ih =>
    by_cases hp : p.1 = k
    · simp only [alookup, if_pos hp, Option.getD_some]
      rw [hid p (List.mem_cons_self p t), hp]
    · simp only [alookup, if_neg hp]
      exact ih (fun q hq => hid q (List.mem_cons_of_mem p hq))

/-- Claim C9: for every pair of translation maps and every seven-field data
row, the rewrite of `apply_chr_replacements` changes only the first field
(through `rep1`) and the fourth field (through `rep2`); fields 2, 3, 5, 6
and 7 of the emitted row are those of the input row, and the emitted row for
any such line of the input file is present in the output. -/
theorem apply_chr_replacements_frame (rep1 rep2 : List (String × String))
    (parts : List String) (h7 : parts.length = 7) :
    (remapParts rep1 rep2 parts).length = 7 ∧
    (remapParts rep1 rep2 parts).get? 1 = parts.get? 1 ∧
    (remapParts rep1 rep2 parts).get? 2 = parts.get? 2 ∧
    (remapParts rep1 rep2 parts).get? 4 = parts.get? 4 ∧
    (remapParts rep1 rep2 parts).get? 5 = parts.get? 5 ∧
    (remapParts rep1 rep2 parts).get? 6 = parts.get? 6 ∧
    (remapParts rep1 rep2 parts).get? 0 =
      some ((alookup rep1 (parts.headD "")).getD (parts.headD "")) ∧
    (remapParts rep1 rep2 parts).get? 3 =
      some ((alookup rep2 ((parts.get? 3).getD "")).getD ((parts.get? 3).getD "")) ∧
    (∀ header rest line, line ∈ rest → splitTab (pyStrip line) = parts →
      joinTab (remapParts rep1 rep2 parts) ∈ apply_chr_replacements (header :: rest) rep1 rep2) := by
  obtain ⟨a, b, c, d, e, f, g, rfl⟩ := length_seven_cases parts h7
  refine ⟨rfl, rfl, rfl, rfl, rfl, rfl, rfl, rfl, ?_⟩
  intro header rest line hline hsplit
  show _ ∈ pyStrip header :: rest.filterMap _
  apply List.mem_cons_of_mem
  apply List.mem_filterMap.mpr
  refine ⟨line, hline, ?_⟩
  rw [hsplit]
  rfl

/-- Witness for C9 at a concrete row and maps. -/
theorem apply_chr_replacements_frame_witness :
    (remapParts [("a", "A")] [("d", "D")] ["a", "b", "c", "d", "e", "f", "g"]).get? 1 =
      (["a", "b", "c", "d", "e", "f", "g"] : List String).get? 1 ∧
    (remapParts [("a", "A")] [("d", "D")] ["a", "b", "c", "d", "e", "f", "g"]).get? 0 =
      some ((alookup [("a", "A")] ((["a", "b", "c", "d", "e", "f", "g"] : List String).headD "")).getD
        ((["a", "b", "c", "d", "e", "f", "g"] : List String).headD "")) :=
  ⟨(apply_chr_replacements_frame [("a", "A")] [("d", "D")]
      ["a", "b", "c", "d", "e", "f", "g"] (by decide)).2.1,
   (apply_chr_replacements_frame [("a", "A")] [("d", "D")]
      ["a", "b", "c", "d", "e", "f", "g"] (by decide)).2.2.2.2.2.2.1⟩

/-- Claim C8: with two identity translation maps (every old label maps to
itself), `apply_chr_replacements` leaves every link row unchanged byte for
byte, apart from the usual header pass-through.  A link row is a line with
exactly seven tab-separated fields and no surrounding whitespace (the file
format written by `merge_busco`). -/
theorem apply_chr_replacements_identity (rep1 rep2 : List (String × String))
    (header : String) (lines : List String)
    (hid1 : ∀ p ∈ rep1, p.2 = p.1) (hid2 : ∀ p ∈ rep2, p.2 = p.1)
    (hh : pyStrip header = header)
    (hcl : ∀ l ∈ lines, pyStrip l = l ∧ (splitTab l).length = 7) :
    apply_chr_replacements (header :: lines) rep1 rep2 = header :: lines := by
  simp only [apply_chr_replacements]
  rw [hh]
  congr 1
  apply filterMap_some_id
  intro l hl
  obtain ⟨hstrip, h7⟩ := hcl l hl
  rw [hstrip]
  rw [if_pos h7]
  congr 1
  have hjoin : joinTab (splitTab l) = l := joinTab_splitTab l
  obtain ⟨a, b, c, d, e, f, g, hparts⟩ := length_seven_cases (splitTab l) h7
  rw [hparts]
  unfold remapParts
  simp only [List.headD_cons, List.get?, Option.getD_some]
  rw [alookup_getD_id rep1 a hid1, alookup_getD_id rep2 d hid2]
  show joinTab [a, b, c, d, e, f, g] = l
  rw [← hparts, hjoin]

/-- Witness for C8 at a concrete file and identity maps. -/
theorem apply_chr_replacements_identity_witness :
    apply_chr_replacements ["HDR", "a\tb\tc\td\te\tf\tg"] [("a", "a")] [("d", "d")] =
      ["HDR", "a\tb\tc\td\te\tf\tg"] :=
  apply_chr_replacements_identity [("a", "a")] [("d", "d")] "HDR" ["a\tb\tc\td\te\tf\tg"]
    (by decide) (by decide) (by decide) (by decide)

-- ===================== C3 : replace_fill =====================

theorem load_color_map_values (lines : List String) :
    ∀ p ∈ load_color_map lines, p.2 ≠ "" := by
  suffices h : ∀ (acc : List (String × String)), (∀ p ∈ acc, p.2 ≠ "") →
      ∀ p ∈ lines.foldl
        (fun acc line =>
          if pyStrip line = "" then acc
          else
            match splitTab (pyStrip line) with
            | [k, v] => insertLW acc k v
            | _ => acc) acc, p.2 ≠ "" by
    exact h [] (by simp)
  induction lines with
  | nil => intro acc hacc p hp; exact hacc p hp
  | cons line t ih =>
    intro acc hacc p hp
    rw [List.foldl_cons] at hp
    by_cases hb : pyStrip line = ""
    · rw [if_pos hb] at hp
      exact ih acc hacc p hp
    · rw [if_neg hb] at hp
      rcases hsp : splitTab (pyStrip line) with _ | ⟨k, _ | ⟨v, _ | ⟨w, r⟩⟩⟩ <;> rw [hsp] at hp
      · exact ih acc hacc p hp
      · exact ih acc hacc p hp
      · refine ih (insertLW acc k v) ?_ p hp
        intro q hq
        rcases mem_insertLW acc k v q hq with h | h
        · rw [h]
          exact splitTab_pyStrip_two line k v hsp
        · exact hacc q h
      · exact ih acc hacc p hp

theorem replace_fill_enumFrom (cd : List (String × String))
    (hval : ∀ p ∈ cd, p.2 ≠ "") (rows : List String) :
    ∀ n, n ≠ 0 →
    (List.enumFrom n rows).filterMap (fun p =>
      if pyStrip p.2 = "" then none
      else if p.1 = 0 then some p.2
      else
        let parts := splitTab (pyStrip p.2)
        if parts.length = 7 then
          match alookup cd (parts.headD "") with
          | some fill => if fill = "" then none else some (joinTab (parts.dropLast ++ [fill]))
          | none => none
        else none) =
    rows.filterMap (fun line =>
      if pyStrip line = "" then none
      else if (splitTab (pyStrip line)).length = 7 then
        match alookup cd ((splitTab (pyStrip line)).headD "") with
        | some fill => some (joinTab ((splitTab (pyStrip line)).dropLast ++ [fill]))
        | none => none
      else none) := by
  induction rows with
  | nil => intro n _; rfl
  | cons a t ih =>
    intro n hn
    have hstep : List.enumFrom n (a :: t) = (n, a) :: List.enumFrom (n + 1) t := rfl
    rw [hstep, List.filterMap_cons, List.filterMap_cons, ih (n + 1) (by omega)]
    congr 1
    by_cases hb : pyStrip a = ""
    · simp only [if_pos hb]
    · simp only [if_neg hb, if_neg hn]
      by_cases h7 : (splitTab (pyStrip a)).length = 7
      · simp only [if_pos h7]
        rcases hl : alookup cd ((splitTab (pyStrip a)).headD "") with _ | fill
        · rfl
        · have hf : fill ≠ "" :=
            hval _ (alookup_mem cd ((splitTab (pyStrip a)).headD "") fill hl)
          simp only [if_neg hf]
      · simp only [if_neg h7]

/-- Claim C3: for every data row of the link table, `replace_fill` looks the
(already remapped) species-1 chromosome label up in the ordinal color map:
when an entry exists the row is emitted with only its trailing fill field
overwritten by the mapped color, when no entry exists the row is dropped and
never emitted with a placeholder; the header row is copied through unchanged.
The color map is as loaded from the `color_replace.txt` lines (whose values
are never empty strings, see `load_color_map_values`). -/
theorem replace_fill_drop_or_overwrite (mapLines : List String) (header : String)
    (rows : List String) (hh : pyStrip header ≠ "") :
    replace_fill (header :: rows) (load_color_map mapLines) =
      header :: rows.filterMap (fun line =>
        if pyStrip line = "" then none
        else if (splitTab (pyStrip line)).length = 7 then
          match alookup (load_color_map mapLines) ((splitTab (pyStrip line)).headD "") with
          | some fill => some (joinTab ((splitTab (pyStrip line)).dropLast ++ [fill]))
          | none => none
        else none) := by
  unfold replace_fill
  have h0 : List.enum (header :: rows) = (0, header) :: List.enumFrom 1 rows := rfl
  rw [h0, List.filterMap_cons]
  have hhead : (if pyStrip header = "" then none
      else if (0 : Nat) = 0 then some header
      else
        let parts := splitTab (pyStrip header)
        if parts.length = 7 then
          match alookup (load_color_map mapLines) (parts.headD "") with
          | some fill => if fill = "" then none else some (joinTab (parts.dropLast ++ [fill]))
          | none => none
        else none) = some header := by
    rw [if_neg hh, if_pos rfl]
  rw [hhead, replace_fill_enumFrom (load_color_map mapLines)
    (load_color_map_values mapLines) rows 1 (by omega)]

/-- Witness for C3: a row whose label (`1`) is in the loaded map is emitted
with its trailing field overwritten, a row whose label (`2`) is absent is
dropped, the header passes through. -/
theorem replace_fill_drop_or_overwrite_witness :
    replace_fill ["H", "1\ta\tb\tc\td\te\tx", "2\ta\tb\tc\td\te\tx"]
      (load_color_map ["1\taabbcc"]) = ["H", "1\ta\tb\tc\td\te\taabbcc"] := by
  exact replace_fill_drop_or_overwrite ["1\taabbcc"] "H"
    ["1\ta\tb\tc\td\te\tx", "2\ta\tb\tc\td\te\tx"] (by decide)

-- ===================== C5 : status filter of read_busco =====================

theorem read_busco_fold_values (rows : List BuscoRow) :
    ∀ (acc : List (String × BuscoRow)),
    ∀ p ∈ rows.foldl
      (fun data row => if isCompleteRow row then insertLW data (buscoKey row) row else data) acc,
    p ∈ acc ∨ (p.2 ∈ rows ∧ isCompleteRow p.2 = true) := by
  induction rows with
  | nil => intro acc p hp; left; exact hp
  | cons r t ih =>
    intro acc p hp
    rw [List.foldl_cons] at hp
    by_cases hc : isCompleteRow r = true
    · rw [if_pos hc] at hp
      rcases ih (insertLW acc (buscoKey r) r) p hp with h | h
      · rcases mem_insertLW acc (buscoKey r) r p h with h2 | h2
        · right
          constructor
          · rw [h2]; exact List.mem_cons_self r t
          · rw [h2]; exact hc
        · left; exact h2
      · right; exact ⟨List.mem_cons_of_mem r h.1, h.2⟩
    · rw [if_neg hc] at hp
      rcases ih acc p hp with h | h
      · left; exact h
      · right; exact ⟨List.mem_cons_of_mem r h.1, h.2⟩

theorem alookup_fold_isSome_mono (rows : List BuscoRow) :
    ∀ (acc : List (String × BuscoRow)) (k : String), (alookup acc k).isSome = true →
    (alookup (rows.foldl
      (fun data row => if isCompleteRow row then insertLW data (buscoKey row) row else data) acc)
      k).isSome = true := by
  induction rows with
  | nil => intro acc k h; exact h
  | cons r t ih =>
    intro acc k h
    rw [List.foldl_cons]
    by_cases hc : isCompleteRow r = true
    · rw [if_pos hc]
      exact ih _ k ((alookup_insertLW_isSome acc (buscoKey r) k r).mpr (Or.inr h))
    · rw [if_neg hc]
      exact ih acc k h

theorem read_busco_complete_isSome (rows : List BuscoRow) :
    ∀ (acc : List (String × BuscoRow)) (r : BuscoRow), r ∈ rows → isCompleteRow r = true →
    (alookup (rows.foldl
      (fun data row => if isCompleteRow row then insertLW data (buscoKey row) row else data) acc)
      (buscoKey r)).isSome = true := by
  induction rows with
  | nil => intro acc r hr; simp at hr
  | cons a t ih =>
    intro acc r hr hc
    rw [List.foldl_cons]
    rcases List.mem_cons.mp hr with h | h
    · subst h
      rw [if_pos hc]
      exact alookup_fold_isSome_mono t _ (buscoKey r)
        ((alookup_insertLW_isSome acc (buscoKey r) (buscoKey r) r).mpr (Or.inl rfl))
    · by_cases ha : isCompleteRow a = true
      · rw [if_pos ha]; exact ih _ r h hc
      · rw [if_neg ha]; exact ih acc r h hc

/-- Claim C5, amended: a row is retained in the per-species index of
`merge_busco` exactly when its `Status` field, after stripping surrounding
whitespace, equals `"Complete"` (case-sensitively): every indexed row is a
row of the table with stripped status `"Complete"`, and every such row makes
its identifier present in the index. -/
theorem read_busco_status_trimmed (rows : List BuscoRow) :
    (∀ p ∈ read_busco rows, p.2 ∈ rows ∧ pyStrip (p.2.status.getD "") = "Complete") ∧
    (∀ r ∈ rows, pyStrip (r.status.getD "") = "Complete" →
      (alookup (read_busco rows) (buscoKey r)).isSome = true) := by
  constructor
  · intro p hp
    rcases read_busco_fold_values rows [] p hp with h | h
    · simp at h
    · refine ⟨h.1, ?_⟩
      have := h.2
      unfold isCompleteRow at this
      exact of_decide_eq_true this
  · intro r hr hc
    exact read_busco_complete_isSome rows [] r hr (by unfold isCompleteRow; exact decide_eq_true hc)

/-- Witness for the amended C5 at a concrete row set. -/
theorem read_busco_status_trimmed_witness :
    (alookup (read_busco buscoRows1) (buscoKey ⟨"X1", some "Complete", some "c1", none,
      some "100", some "200"⟩)).isSome = true :=
  (read_busco_status_trimmed buscoRows1).2
    ⟨"X1", some "Complete", some "c1", none, some "100", some "200"⟩
    (by decide) (by decide)

/-- Counterexample to C5 as stated: a row whose `Status` is `" Complete"`,
not exactly `"Complete"`, is nevertheless retained in the index, because the
code strips the field before comparing. -/
theorem read_busco_status_counterexample :
    read_busco [⟨"x", some " Complete", none, none, none, none⟩] =
      [("x", ⟨"x", some " Complete", none, none, none, none⟩)] ∧
    (some " Complete" : Option String) ≠ some "Complete" := ⟨by decide, by decide⟩

-- ===================== C2 : merge_busco =====================

theorem nodup_keys_insertLW {α : Type} (m : List (String × α)) (k : String) (v : α)
    (h : (m.map Prod.fst).Nodup) : ((insertLW m k v).map Prod.fst).Nodup := by
  rw [keys_insertLW]
  by_cases hc : (m.map Prod.fst).contains k = true
  · rw [if_pos hc]; exact h
  · rw [if_neg hc]
    have hk : k ∉ m.map Prod.fst := by
      intro hmem
      exact hc (List.elem_eq_true_of_mem hmem)
    rw [List.nodup_append]
    exact ⟨h, List.nodup_singleton k, by
      intro a ha hb
      rw [List.mem_singleton] at hb
      exact hk (hb ▸ ha)⟩

theorem read_busco_keys_nodup (rows : List BuscoRow) :
    ((read_busco rows).map Prod.fst).Nodup := by
  suffices h : ∀ (acc : List (String × BuscoRow)), (acc.map Prod.fst).Nodup →
      ((rows.foldl
        (fun data row => if isCompleteRow row then insertLW data (buscoKey row) row else data)
        acc).map Prod.fst).Nodup by
    exact h [] (by simp)
  induction rows with
  | nil => intro acc hacc; exact hacc
  | cons r t ih =>
    intro acc hacc
    rw [List.foldl_cons]
    by_cases hc : isCompleteRow r = true
    · rw [if_pos hc]
      exact ih _ (nodup_keys_insertLW acc (buscoKey r) r hacc)
    · rw [if_neg hc]
      exact ih acc hacc

theorem read_busco_keys_firstSeen (rows : List BuscoRow) :
    (read_busco rows).map Prod.fst = firstSeenCompleteIds rows := by
  suffices h : ∀ (acc : List (String × BuscoRow)),
      ((rows.foldl
        (fun data row => if isCompleteRow row then insertLW data (buscoKey row) row else data)
        acc).map Prod.fst) =
      (rows.foldl
        (fun a r =>
          if isCompleteRow r then (if a.contains (buscoKey r) then a else a ++ [buscoKey r])
          else a)
        (acc.map Prod.fst)) by
    exact h []
  induction rows with
  | nil => intro acc; rfl
  | cons r t ih =>
    intro acc
    rw [List.foldl_cons, List.foldl_cons]
    by_cases hc : isCompleteRow r = true
    · rw [if_pos hc, if_pos hc, ih (insertLW acc (buscoKey r) r), keys_insertLW]
    · rw [if_neg hc, if_neg hc, ih acc]

/-- Claim C2: for two ortholog tables, `merge_busco` emits exactly one link
row per identifier shared between the two Complete-filtered indices, in the
order the identifiers were first seen among Complete rows of the species-1
table, provided each shared identifier resolves a truthy contig and parseable
coordinates on both sides; identifiers present in only one index (which
includes every identifier whose rows all have non-Complete status) never
produce a row, since the emitted rows are exactly one per shared identifier. -/
theorem merge_busco_shared_rows (rows1 rows2 : List BuscoRow)
    (hvalid : ∀ bid ∈ sharedIds (read_busco rows1) (read_busco rows2),
      ((alookup (read_busco rows1) bid).bind (fun r1 =>
        (alookup (read_busco rows2) bid).bind (fun r2 => linkOfPair r1 r2))).isSome = true) :
    (merge_busco rows1 rows2).tail =
      (sharedIds (read_busco rows1) (read_busco rows2)).map (fun bid =>
        ((alookup (read_busco rows1) bid).bind (fun r1 =>
          (alookup (read_busco rows2) bid).bind (fun r2 => linkOfPair r1 r2))).getD "") ∧
    (merge_busco rows1 rows2).tail.length =
      (sharedIds (read_busco rows1) (read_busco rows2)).length ∧
    (sharedIds (read_busco rows1) (read_busco rows2)).Nodup ∧
    (read_busco rows1).map Prod.fst = firstSeenCompleteIds rows1 := by
  have htail : (merge_busco rows1 rows2).tail =
      (sharedIds (read_busco rows1) (read_busco rows2)).filterMap (fun bid =>
        (alookup (read_busco rows1) bid).bind (fun r1 =>
          (alookup (read_busco rows2) bid).bind (fun r2 => linkOfPair r1 r2))) := rfl
  have hmap := filterMap_eq_map_of_isSome
    (fun bid => (alookup (read_busco rows1) bid).bind (fun r1 =>
      (alookup (read_busco rows2) bid).bind (fun r2 => linkOfPair r1 r2)))
    "" (sharedIds (read_busco rows1) (read_busco rows2)) hvalid
  refine ⟨htail.trans hmap, ?_, ?_, read_busco_keys_firstSeen rows1⟩
  · rw [htail.trans hmap, List.length_map]
  · exact List.Nodup.filter _ (read_busco_keys_nodup rows1)

/-- Witness for C2 at the concrete tables `buscoRows1` / `buscoRows2`, which
share exactly the identifier `x1`. -/
theorem merge_busco_shared_rows_witness :
    (merge_busco buscoRows1 buscoRows2).tail.length =
      (sharedIds (read_busco buscoRows1) (read_busco buscoRows2)).length :=
  (merge_busco_shared_rows buscoRows1 buscoRows2 (by decide)).2.1

-- ===================== Sorting machinery (for C1 / C4) =====================

theorem sameTy_refl (k : ChrKey) : sameTy k k = true := by cases k <;> rfl

theorem sameTy_symm {k1 k2 : ChrKey} (h : sameTy k1 k2 = true) : sameTy k2 k1 = true := by
  cases k1 <;> cases k2 <;> simp_all [sameTy]

theorem sameTy_trans {k1 k2 k3 : ChrKey} (h1 : sameTy k1 k2 = true)
    (h2 : sameTy k2 k3 = true) : sameTy k1 k3 = true := by
  cases k1 <;> cases k2 <;> cases k3 <;> simp_all [sameTy]

theorem keyLtE_ok_of_sameTy {k1 k2 : ChrKey} (h : sameTy k1 k2 = true) :
    keyLtE k1 k2 = .ok (keyLtB k1 k2) := by
  cases k1 <;> cases k2 <;> simp_all [sameTy, keyLtE, keyLtB]

theorem keyLtE_ok_sameTy {k1 k2 : ChrKey} {b : Bool} (h : keyLtE k1 k2 = .ok b) :
    sameTy k1 k2 = true := by
  cases k1 <;> cases k2 <;> simp_all [keyLtE, sameTy]

theorem keyLtE_ok_val {k1 k2 : ChrKey} {b : Bool} (h : keyLtE k1 k2 = .ok b) :
    b = keyLtB k1 k2 := by
  cases k1 <;> cases k2 <;> simp_all [keyLtE, keyLtB]

theorem keyLtB_asymm : ∀ {k1 k2 : ChrKey}, keyLtB k1 k2 = true → keyLtB k2 k1 = false
  | .int a, .int b, h => by
    simp only [keyLtB, decide_eq_true_eq] at h
    simp only [keyLtB, decide_eq_false_iff_not]
    omega
  | .str a, .str b, h => by
    simp only [keyLtB, decide_eq_true_eq] at h
    simp only [keyLtB, decide_eq_false_iff_not]
    exact lt_asymm h
  | .int _, .str _, h => by simp [keyLtB] at h
  | .str _, .int _, h => by simp [keyLtB] at h

theorem keyLtB_trans : ∀ {k1 k2 k3 : ChrKey}, keyLtB k1 k2 = true → keyLtB k2 k3 = true →
    keyLtB k1 k3 = true
  | .int a, .int b, .int c, h1, h2 => by
    simp only [keyLtB, decide_eq_true_eq] at h1 h2 ⊢
    omega
  | .str a, .str b, .str c, h1, h2 => by
    simp only [keyLtB, decide_eq_true_eq] at h1 h2 ⊢
    exact lt_trans h1 h2
  | .int _, .str _, _, h1, _ => by simp [keyLtB] at h1
  | .str _, .int _, _, h1, _ => by simp [keyLtB] at h1
  | .int _, .int _, .str _, _, h2 => by simp [keyLtB] at h2
  | .str _, .str _, .int _, _, h2 => by simp [keyLtB] at h2

theorem key_eq_of_not_lt : ∀ {k1 k2 : ChrKey}, sameTy k1 k2 = true →
    keyLtB k1 k2 = false → keyLtB k2 k1 = false → k1 = k2
  | .int a, .int b, _, h1, h2 => by
    simp only [keyLtB, decide_eq_false_iff_not] at h1 h2
    have : a = b := by omega
    rw [this]
  | .str a, .str b, _, h1, h2 => by
    simp only [keyLtB, decide_eq_false_iff_not] at h1 h2
    have : a = b := le_antisymm (not_lt.mp h2) (not_lt.mp h1)
    rw [this]
  | .int _, .str _, hs, _, _ => by simp [sameTy] at hs
  | .str _, .int _, hs, _, _ => by simp [sameTy] at hs

theorem mem_insertP (key : String → ChrKey) (x : String) :
    ∀ (l : List String) (z : String), z ∈ insertP key x l ↔ z = x ∨ z ∈ l := by
  intro l
  induction l with
  | nil => intro z; simp [insertP]
  | cons y ys ih =>
    intro z
    by_cases hlt : keyLtB (key x) (key y) = true
    · simp only [insertP, if_pos hlt, List.mem_cons]
    · simp only [insertP, if_neg hlt, List.mem_cons, ih z]
      tauto

theorem insertP_perm (key : String → ChrKey) (x : String) :
    ∀ l : List String, (insertP key x l).Perm (x :: l) := by
  intro l
  induction l with
  | nil => simp [insertP]
  | cons y ys ih =>
    by_cases hlt : keyLtB (key x) (key y) = true
    · rw [insertP, if_pos hlt]
    · rw [insertP, if_neg hlt]
      exact (ih.cons y).trans (List.Perm.swap x y ys)

theorem sortP_perm (key : String → ChrKey) (l : List String) : (sortP key l).Perm l := by
  suffices h : ∀ (l acc : List String),
      (l.foldl (fun acc x => insertP key x acc) acc).Perm (acc ++ l) by
    simpa using h l []
  intro l
  induction l with
  | nil => intro acc; simp
  | cons x xs ih =>
    intro acc
    rw [List.foldl_cons]
    refine (ih (insertP key x acc)).trans ?_
    refine (((insertP_perm key x acc).append_right xs)).trans ?_
    exact List.perm_middle.symm

theorem insertP_pairwise (key : String → ChrKey) (x : String) (l : List String)
    (h : l.Pairwise (fun a b => keyLtB (key b) (key a) = false)) :
    (insertP key x l).Pairwise (fun a b => keyLtB (key b) (key a) = false) := by
  induction l with
  | nil => simp [insertP]
  | cons y ys ih =>
    rw [List.pairwise_cons] at h
    obtain ⟨hy, hys⟩ := h
    by_cases hlt : keyLtB (key x) (key y) = true
    · rw [insertP, if_pos hlt]
      rw [List.pairwise_cons]
      constructor
      · intro z hz
        rcases List.mem_cons.mp hz with hz | hz
        · rw [hz]
          exact keyLtB_asymm hlt
        · cases hzx : keyLtB (key z) (key x) with
          | false => rfl
          | true =>
            have := keyLtB_trans hzx hlt
            rw [hy z hz] at this
            cases this
      · rw [List.pairwise_cons]
        exact ⟨hy, hys⟩
    · rw [insertP, if_neg hlt]
      rw [List.pairwise_cons]
      constructor
      · intro z hz
        rcases (mem_insertP key x ys z).mp hz with hz | hz
        · rw [hz]
          exact eq_false_of_ne_true hlt
        · exact hy z hz
      · exact ih hys

theorem sortP_pairwise (key : String → ChrKey) (l : List String) :
    (sortP key l).Pairwise (fun a b => keyLtB (key b) (key a) = false) := by
  suffices h : ∀ (l acc : List String),
      acc.Pairwise (fun a b => keyLtB (key b) (key a) = false) →
      (l.foldl (fun acc x => insertP key x acc) acc).Pairwise
        (fun a b => keyLtB (key b) (key a) = false) by
    exact h l [] (by simp)
  intro l
  induction l with
  | nil => intro acc hacc; exact hacc
  | cons x xs ih =>
    intro acc hacc
    rw [List.foldl_cons]
    exact ih (insertP key x acc) (insertP_pairwise key x acc hacc)

theorem insertE_eq_ok (key : String → ChrKey) (x : String) :
    ∀ l : List String, (∀ y ∈ l, sameTy (key x) (key y) = true) →
    insertE key x l = .ok (insertP key x l) := by
  intro l
  induction l with
  | nil => intro _; rfl
  | cons y ys ih =>
    intro h
    have hy := h y (List.mem_cons_self y ys)
    show (keyLtE (key x) (key y)) >>= _ = _
    rw [keyLtE_ok_of_sameTy hy]
    by_cases hlt : keyLtB (key x) (key y) = true
    · rw [hlt]
      show Except.ok (x :: y :: ys) = _
      rw [insertP, if_pos hlt]
    · have hlt2 := eq_false_of_ne_true hlt
      rw [hlt2]
      show (insertE key x ys) >>= _ = _
      rw [ih (fun z hz => h z (List.mem_cons_of_mem y hz))]
      show Except.ok (y :: insertP key x ys) = _
      rw [insertP, if_neg hlt]

theorem insertE_ok_eq (key : String → ChrKey) (x : String) :
    ∀ (l out : List String), insertE key x l = .ok out → out = insertP key x l := by
  intro l
  induction l with
  | nil =>
    intro out h
    cases h
    rfl
  | cons y ys ih =>
    intro out h
    rcases hE : keyLtE (key x) (key y) with e | b
    · rw [show insertE key x (y :: ys) = (keyLtE (key x) (key y)) >>= _ from rfl, hE] at h
      cases h
    · rw [show insertE key x (y :: ys) = (keyLtE (key x) (key y)) >>= _ from rfl, hE] at h
      rw [keyLtE_ok_val hE] at h
      by_cases hlt : keyLtB (key x) (key y) = true
      · rw [hlt] at h
        cases h
        rw [insertP, if_pos hlt]
      · rw [eq_false_of_ne_true hlt] at h
        have h2 : (insertE key x ys >>= fun t =>
            (pure (y :: t) : Except String (List String))) = Except.ok out := h
        rcases hrec : insertE key x ys with e2 | t
        · rw [hrec] at h2
          exact Except.noConfusion h2
        · rw [hrec] at h2
          have h3 : Except.ok (y :: t) = Except.ok out := h2
          cases h3
          rw [insertP, if_neg hlt, ih t hrec]

theorem insertE_ok_head_sameTy (key : String → ChrKey) (x y : String) (ys out : List String)
    (h : insertE key x (y :: ys) = .ok out) : sameTy (key x) (key y) = true := by
  rcases hE : keyLtE (key x) (key y) with e | b
  · rw [show insertE key x (y :: ys) = (keyLtE (key x) (key y)) >>= _ from rfl, hE] at h
    cases h
  · exact keyLtE_ok_sameTy hE

theorem sortE_fold_ok_uniform (key : String → ChrKey) :
    ∀ (l acc out : List String),
    (∀ a ∈ acc, ∀ b ∈ acc, sameTy (key a) (key b) = true) →
    List.foldlM (fun acc x => insertE key x acc) acc l = .ok out →
    (∀ a ∈ out, ∀ b ∈ out, sameTy (key a) (key b) = true) ∧
    (∀ z ∈ l, z ∈ out) ∧ (∀ z ∈ acc, z ∈ out) := by
  intro l
  induction l with
  | nil =>
    intro acc out hacc h
    cases h
    exact ⟨hacc, by simp, fun z hz => hz⟩
  | cons x xs ih =>
    intro acc out hacc h
    rw [List.foldlM_cons] at h
    rcases h1 : insertE key x acc with e | mid
    · rw [h1] at h; cases h
    · rw [h1] at h
      have hmid : mid = insertP key x acc := insertE_ok_eq key x acc mid h1
      have hmemmid : ∀ z, z ∈ mid ↔ z = x ∨ z ∈ acc := by
        intro z; rw [hmid]; exact mem_insertP key x acc z
      have hxacc : ∀ a ∈ acc, sameTy (key x) (key a) = true := by
        cases acc with
        | nil => intro a ha; simp at ha
        | cons y ys =>
          intro a ha
          have hxy := insertE_ok_head_sameTy key x y ys mid h1
          rcases List.mem_cons.mp ha with ha | ha
          · rw [ha]; exact hxy
          · exact sameTy_trans hxy (hacc y (List.mem_cons_self y ys) a
              (List.mem_cons_of_mem y ha))
      have hmiduni : ∀ a ∈ mid, ∀ b ∈ mid, sameTy (key a) (key b) = true := by
        intro a ha b hb
        rcases (hmemmid a).mp ha with ha2 | ha2 <;> rcases (hmemmid b).mp hb with hb2 | hb2
        · rw [ha2, hb2]; exact sameTy_refl _
        · rw [ha2]; exact hxacc b hb2
        · rw [hb2]; exact sameTy_symm (hxacc a ha2)
        · exact hacc a ha2 b hb2
      obtain ⟨huni, hsub, hsub2⟩ := ih mid out hmiduni h
      refine ⟨huni, ?_, ?_⟩
      · intro z hz
        rcases List.mem_cons.mp hz with hz | hz
        · exact hsub2 z ((hmemmid z).mpr (Or.inl hz))
        · exact hsub z hz
      · intro z hz
        exact hsub2 z ((hmemmid z).mpr (Or.inr hz))

theorem sortByKeyE_ok_of_uniform (key : String → ChrKey) :
    ∀ (l acc : List String),
    (∀ a ∈ l, ∀ b ∈ acc, sameTy (key a) (key b) = true) →
    (∀ a ∈ l, ∀ b ∈ l, sameTy (key a) (key b) = true) →
    List.foldlM (fun acc x => insertE key x acc) acc l =
      .ok (l.foldl (fun acc x => insertP key x acc) acc) := by
  intro l
  induction l with
  | nil => intro acc _ _; rfl
  | cons x xs ih =>
    intro acc hcross huni
    rw [List.foldlM_cons, insertE_eq_ok key x acc
      (hcross x (List.mem_cons_self x xs)), List.foldl_cons]
    show List.foldlM _ (insertP key x acc) xs = _
    refine ih (insertP key x acc) ?_ ?_
    · intro a ha b hb
      rcases (mem_insertP key x acc b).mp hb with hb2 | hb2
      · rw [hb2]
        exact huni a (List.mem_cons_of_mem x ha) x (List.mem_cons_self x xs)
      · exact hcross a (List.mem_cons_of_mem x ha) b hb2
    · intro a ha b hb
      exact huni a (List.mem_cons_of_mem x ha) b (List.mem_cons_of_mem x hb)

theorem sortByKeyE_ok (key : String → ChrKey) (l : List String)
    (huni : ∀ a ∈ l, ∀ b ∈ l, sameTy (key a) (key b) = true) :
    sortByKeyE key l = .ok (sortP key l) :=
  sortByKeyE_ok_of_uniform key l [] (by intro a _ b hb; simp at hb) huni

theorem sortByKeyE_mixed_error (key : String → ChrKey) (l : List String) (x y : String)
    (hx : x ∈ l) (hy : y ∈ l) (hix : (key x).isIntK = true) (hiy : (key y).isIntK = false) :
    isOkE (sortByKeyE key l) = false := by
  rcases h : sortByKeyE key l with e | out
  · rfl
  · exfalso
    obtain ⟨huni, hsub, _⟩ := sortE_fold_ok_uniform key l [] out (by simp) h
    have := huni x (hsub x hx) y (hsub y hy)
    rcases hkx : key x with a | a <;> rcases hky : key y with b | b <;>
      simp_all [sameTy, ChrKey.isIntK]

-- ===================== C4 : ordering of mixed label sets =====================

theorem sorted_perm_eq (key : String → ChrKey) :
    ∀ (u v : List String), u.Perm v →
    u.Pairwise (fun a b => keyLtB (key b) (key a) = false) →
    v.Pairwise (fun a b => keyLtB (key b) (key a) = false) →
    (∀ x ∈ u, ∀ y ∈ u, sameTy (key x) (key y) = true) →
    (u.map key).Nodup → u = v := by
  intro u
  induction u with
  | nil =>
    intro v hp _ _ _ _
    exact (List.Perm.eq_nil hp.symm).symm
  | cons a t ih =>
    intro v hp hpu hpv huni hnd
    cases v with
    | nil => exact List.Perm.eq_nil hp
    | cons b s =>
      have hau : a ∈ a :: t := List.mem_cons_self a t
      have hbu : b ∈ a :: t := hp.mem_iff.mpr (List.mem_cons_self b s)
      have hav : a ∈ b :: s := hp.mem_iff.mp hau
      have hab : a = b := by
        by_cases h : a = b
        · exact h
        · have hbt : b ∈ t := by
            rcases List.mem_cons.mp hbu with h2 | h2
            · exact absurd h2.symm h
            · exact h2
          have has : a ∈ s := by
            rcases List.mem_cons.mp hav with h2 | h2
            · exact absurd h2 h
            · exact h2
          have hRab : keyLtB (key b) (key a) = false := (List.pairwise_cons.mp hpu).1 b hbt
          have hRba : keyLtB (key a) (key b) = false := (List.pairwise_cons.mp hpv).1 a has
          have hst : sameTy (key a) (key b) = true := huni a hau b hbu
          have hkey : key a = key b := key_eq_of_not_lt hst hRba hRab
          exact List.inj_on_of_nodup_map hnd hau hbu hkey
      subst hab
      have ht : t.Perm s := hp.cons_inv
      congr 1
      refine ih s ht (List.pairwise_cons.mp hpu).2 (List.pairwise_cons.mp hpv).2 ?_ ?_
      · intro x hx y hy
        exact huni x (List.mem_cons_of_mem a hx) y (List.mem_cons_of_mem a hy)
      · exact (List.nodup_cons.mp (by simpa using hnd)).2

/-- Claim C4, amended: the pre-color-assignment sort orders a uniformly-keyed
label set correctly (the result is a permutation of the set, sorted by the
`try_parse_chr` key order: numeric and Roman keys by magnitude, unparseable
labels by their raw string value); but a set mixing a parsed (int-keyed) and
an unparseable (string-keyed) label makes the sort raise a `TypeError`, which
the broad handler makes fatal — mixed-type comparison does not fall back to
string ordering. -/
theorem sort_keys_behavior (l : List String) :
    ((∀ x ∈ l, ∀ y ∈ l, sameTy (try_parse_chr x) (try_parse_chr y) = true) →
      sortByKeyE try_parse_chr l = .ok (sortP try_parse_chr l) ∧
      (sortP try_parse_chr l).Perm l ∧
      (sortP try_parse_chr l).Pairwise
        (fun a b => keyLtB (try_parse_chr b) (try_parse_chr a) = false)) ∧
    (∀ x ∈ l, ∀ y ∈ l, (try_parse_chr x).isIntK = true → (try_parse_chr y).isIntK = false →
      isOkE (sortByKeyE try_parse_chr l) = false) := by
  constructor
  · intro huni
    exact ⟨sortByKeyE_ok _ l huni, sortP_perm _ l, sortP_pairwise _ l⟩
  · intro x hx y hy hix hiy
    exact sortByKeyE_mixed_error _ l x y hx hy hix hiy

/-- Witness for the amended C4: `["2", "1", "10"]` sorts successfully (by
magnitude), and the mixed set `["a", "1"]` is fatal. -/
theorem sort_keys_behavior_witness :
    sortByKeyE try_parse_chr ["2", "1", "10"] = .ok (sortP try_parse_chr ["2", "1", "10"]) ∧
    isOkE (sortByKeyE try_parse_chr ["a", "1"]) = false :=
  ⟨((sort_keys_behavior ["2", "1", "10"]).1 (by decide)).1,
   (sort_keys_behavior ["a", "1"]).2 "1" (by decide) "a" (by decide) (by decide) (by decide)⟩

/-- Counterexample to C4 as stated: on the mixed set `{"a", "1"}` the sort
does not order the unparseable label after the parsed one — it raises a
`TypeError` (fatal through the broad handler of `create_chr_color_map`),
because Python 3 refuses to compare an `int` key with a `str` key. -/
theorem mixed_keys_sort_counterexample :
    sortByKeyE try_parse_chr ["a", "1"] = .error "TypeError: unorderable types" ∧
    create_chr_color_map ["a", "1"] = .error "TypeError: unorderable types" := ⟨rfl, rfl⟩

-- ===================== C1 : color assignment determinism =====================

theorem hexDigit_mem_fin : ∀ n : Fin 16, isHexCh (hexDigit n.val) = true := by decide

theorem isHexCh_hexDigit (m : Nat) : isHexCh (hexDigit (m % 16)) = true :=
  hexDigit_mem_fin ⟨m % 16, Nat.mod_lt m (by omega)⟩

theorem hexDigit_inj_fin : ∀ a b : Fin 16, hexDigit a.val = hexDigit b.val → a = b := by decide

theorem hexDigit_inj (x y : Nat) (hx : x < 16) (hy : y < 16) (h : hexDigit x = hexDigit y) :
    x = y :=
  congrArg Fin.val (hexDigit_inj_fin ⟨x, hx⟩ ⟨y, hy⟩ h)

theorem toHex6_inj (i j : Nat) (hi : i < 16777216) (hj : j < 16777216)
    (h : toHex6 i = toHex6 j) : i = j := by
  have hd := congrArg String.data h
  simp only [toHex6, List.cons.injEq, and_true] at hd
  obtain ⟨e5, e4, e3, e2, e1, e0⟩ := hd
  have v5 := hexDigit_inj _ _ (Nat.mod_lt _ (by omega)) (Nat.mod_lt _ (by omega)) e5
  have v4 := hexDigit_inj _ _ (Nat.mod_lt _ (by omega)) (Nat.mod_lt _ (by omega)) e4
  have v3 := hexDigit_inj _ _ (Nat.mod_lt _ (by omega)) (Nat.mod_lt _ (by omega)) e3
  have v2 := hexDigit_inj _ _ (Nat.mod_lt _ (by omega)) (Nat.mod_lt _ (by omega)) e2
  have v1 := hexDigit_inj _ _ (Nat.mod_lt _ (by omega)) (Nat.mod_lt _ (by omega)) e1
  have v0 := hexDigit_inj _ _ (Nat.mod_lt _ (by omega)) (Nat.mod_lt _ (by omega)) e0
  omega

theorem generate_color_gradient_length (n : Nat) : (generate_color_gradient n).length = n := by
  simp [generate_color_gradient]

theorem generate_color_gradient_nodup (n : Nat) (hn : n ≤ 16777216) :
    (generate_color_gradient n).Nodup := by
  apply List.Nodup.map_on
  · intro x hx y hy hxy
    rw [List.mem_range] at hx hy
    exact toHex6_inj x y (by omega) (by omega) hxy
  · exact List.nodup_range n

theorem toHex6_shape (i : Nat) : (toHex6 i).length = 6 ∧ (toHex6 i).data.all isHexCh = true := by
  refine ⟨rfl, ?_⟩
  simp only [toHex6, List.all_cons, List.all_nil, Bool.and_true, isHexCh_hexDigit,
    Bool.and_self]

/-- Claim C1, amended: for two presentations of the same chromosome label set
whose `try_parse_chr` keys are uniformly typed (all parsed or all unparsed)
and pairwise distinct, `create_chr_color_map` returns identical label and
rank color maps regardless of input order, with exactly as many pairwise
distinct 6-hex-digit colors as there are distinct labels (for label counts up
to the 2^24 colors the hex format can hold).  Without pairwise-distinct keys
the maps depend on the input order (see the counterexample), and without
uniformly typed keys the sort is fatal (claim C4). -/
theorem create_chr_color_map_deterministic (l1 l2 : List String)
    (hperm : (uniqueFirst l1).Perm (uniqueFirst l2))
    (huni : ∀ x ∈ uniqueFirst l1, ∀ y ∈ uniqueFirst l1,
      sameTy (try_parse_chr x) (try_parse_chr y) = true)
    (hdist : ((uniqueFirst l1).map try_parse_chr).Nodup)
    (hn : (uniqueFirst l1).length ≤ 16777216) :
    create_chr_color_map l1 = create_chr_color_map l2 ∧
    (labelColorsOf l1).length = (uniqueFirst l1).length ∧
    (labelColorsOf l1).Nodup ∧
    (∀ c ∈ labelColorsOf l1, c.length = 6 ∧ c.data.all isHexCh = true) := by
  have huni2 : ∀ x ∈ uniqueFirst l2, ∀ y ∈ uniqueFirst l2,
      sameTy (try_parse_chr x) (try_parse_chr y) = true := by
    intro x hx y hy
    exact huni x (hperm.mem_iff.mpr hx) y (hperm.mem_iff.mpr hy)
  have hok1 : sortByKeyE try_parse_chr (uniqueFirst l1) =
      .ok (sortP try_parse_chr (uniqueFirst l1)) := sortByKeyE_ok _ _ huni
  have hok2 : sortByKeyE try_parse_chr (uniqueFirst l2) =
      .ok (sortP try_parse_chr (uniqueFirst l2)) := sortByKeyE_ok _ _ huni2
  have hsorteq : sortP try_parse_chr (uniqueFirst l1) = sortP try_parse_chr (uniqueFirst l2) := by
    apply sorted_perm_eq try_parse_chr
    · exact (sortP_perm _ _).trans (hperm.trans (sortP_perm _ _).symm)
    · exact sortP_pairwise _ _
    · exact sortP_pairwise _ _
    · intro x hx y hy
      exact huni x ((sortP_perm _ _).mem_iff.mp hx) y ((sortP_perm _ _).mem_iff.mp hy)
    · exact (((sortP_perm try_parse_chr (uniqueFirst l1)).map try_parse_chr).nodup_iff).mpr hdist
  have hval : create_chr_color_map l1 = .ok
      ((sortP try_parse_chr (uniqueFirst l1)).zip
        (generate_color_gradient (sortP try_parse_chr (uniqueFirst l1)).length),
       ((List.range (sortP try_parse_chr (uniqueFirst l1)).length).zip
        (generate_color_gradient (sortP try_parse_chr (uniqueFirst l1)).length)).map
          (fun p => (Nat.repr (p.1 + 1), p.2))) := by
    unfold create_chr_color_map
    dsimp only
    rw [hok1]
    rfl
  have hlen : (sortP try_parse_chr (uniqueFirst l1)).length = (uniqueFirst l1).length :=
    (sortP_perm try_parse_chr (uniqueFirst l1)).length_eq
  have hcolors : labelColorsOf l1 =
      generate_color_gradient (sortP try_parse_chr (uniqueFirst l1)).length := by
    unfold labelColorsOf
    rw [hval]
    exact List.map_snd_zip _ _ (by rw [generate_color_gradient_length])
  refine ⟨?_, ?_, ?_, ?_⟩
  · unfold create_chr_color_map
    dsimp only
    rw [hok1, hok2, hsorteq]
  · rw [hcolors, generate_color_gradient_length, hlen]
  · rw [hcolors]
    exact generate_color_gradient_nodup _ (by omega)
  · intro c hc
    rw [hcolors] at hc
    obtain ⟨i, _, hi⟩ := List.mem_map.mp hc
    rw [← hi]
    exact toHex6_shape i

/-- Witness for the amended C1: the sets `{"2", "1"}` presented in the two
orders give identical output, with two distinct colors. -/
theorem create_chr_color_map_deterministic_witness :
    create_chr_color_map ["2", "1"] = create_chr_color_map ["1", "2"] ∧
    (labelColorsOf ["2", "1"]).Nodup :=
  ⟨(create_chr_color_map_deterministic ["2", "1"] ["1", "2"]
      (by decide) (by decide) (by decide) (by decide)).1,
   (create_chr_color_map_deterministic ["2", "1"] ["1", "2"]
      (by decide) (by decide) (by decide) (by decide)).2.2.1⟩

/-- Counterexample to C1 as stated: the labels `"1"` and `"I"` are distinct
but share the sort key 1, so the stable sort preserves their input order and
the two input orders give different label-to-color maps (the rank map happens
to agree). -/
theorem create_chr_color_map_order_counterexample :
    create_chr_color_map ["1", "I"] =
      .ok ([("1", "000000"), ("I", "000001")], [("1", "000000"), ("2", "000001")]) ∧
    create_chr_color_map ["I", "1"] =
      .ok ([("I", "000000"), ("1", "000001")], [("1", "000000"), ("2", "000001")]) ∧
    ([("1", "000000"), ("I", "000001")] : List (String × String)) ≠
      [("I", "000000"), ("1", "000001")] := ⟨rfl, rfl, by decide⟩

-- ===================== C6 : augment_karyotype fatal cases =====================

theorem colIdx_none_iff (df : DF) (c : String) : df.colIdx c = none ↔ c ∉ df.cols := by
  unfold DF.colIdx
  rw [List.findIdx?_eq_none_iff]
  constructor
  · intro h hc
    have := h c hc
    simp at this
  · intro h x hx
    simp only [decide_eq_false_iff_not]
    intro he
    exact h (he ▸ hx)

/-- Claim C6, amended: a missing `Chr` column is fatal only in color-map-join
mode (no flat fill), where the pandas merge on `Chr` raises; in flat-fill
mode `augment_karyotype` never touches `Chr` and succeeds, simply omitting
the column from the output.  (The color map itself is read with
`names=["Chr", "fill"]` and therefore always has a `Chr` column, so it cannot
trigger this failure.) -/
theorem augment_karyotype_chr_errors (df : DF) (cmap : List (String × String))
    (fa : Option String) (size color : String) :
    (pyTruthyS fa = false → "Chr" ∉ df.cols →
      augment_karyotype df cmap fa size color = .error "KeyError: Chr") ∧
    (pyTruthyS fa = true → isOkE (augment_karyotype df cmap fa size color) = true) := by
  constructor
  · intro hfa hchr
    have hidx : df.colIdx "Chr" = none := (colIdx_none_iff df "Chr").mpr hchr
    have hmerge : mergeLeftChr df cmap = .error "KeyError: Chr" := by
      unfold mergeLeftChr
      rw [hidx]
    have hc : ¬ (pyTruthyS fa = true) := by rw [hfa]; exact Bool.false_ne_true
    unfold augment_karyotype
    rw [if_neg hc, hmerge]
    rfl
  · intro hfa
    unfold augment_karyotype
    rw [if_pos hfa]
    rfl

/-- Witness for the amended C6: on a karyotype without a `Chr` column, join
mode is fatal while flat-fill mode succeeds. -/
theorem augment_karyotype_chr_errors_witness :
    augment_karyotype ⟨["Start", "End"], [[some "1", some "2"]]⟩ [] none "12" "black" =
      .error "KeyError: Chr" ∧
    isOkE (augment_karyotype ⟨["Start", "End"], [[some "1", some "2"]]⟩ []
      (some "cccccc") "12" "black") = true :=
  ⟨(augment_karyotype_chr_errors ⟨["Start", "End"], [[some "1", some "2"]]⟩ [] none
      "12" "black").1 rfl (by decide),
   (augment_karyotype_chr_errors ⟨["Start", "End"], [[some "1", some "2"]]⟩ []
      (some "cccccc") "12" "black").2 rfl⟩

/-- Counterexample to C6 as stated: in flat-fill mode, a source karyotype
with no `Chr` column does not make `augment_karyotype` fail — the run
succeeds and the `Chr` column is simply absent from the output. -/
theorem augment_karyotype_flat_counterexample :
    isOkE (augment_karyotype ⟨["Start", "End"], [[some "1", some "2"]]⟩ []
      (some "cccccc") "12" "black") = true ∧
    "Chr" ∉ (⟨["Start", "End"], [[some "1", some "2"]]⟩ : DF).cols := ⟨rfl, by decide⟩
